import Mathlib

/-!
Verification of the latency-metrics service (`GA_2_5/api/index.py`).

The computational core of the service is:
  * `calculate_percentile` — linear-interpolation percentile estimation over a
    sorted copy of the input list;
  * the `POST /api/latency` handler `get_region_metrics` — groups the telemetry
    records by region and, for each requested region, computes
    `{avg_latency, p95_latency, avg_uptime, breaches}`, zero-filling regions
    absent from the dataset.

Numbers are modelled by `ℚ` (the Python code manipulates JSON numbers; we work
with exact rational arithmetic).  Python's `round(x, d)` is modelled by exact
half-to-even decimal rounding (`roundTo`), `int(x)` by truncation toward zero
(`intOfRat`), `sorted` by a stable ascending sort, and the Python result `dict`
by an association list with insert-or-overwrite semantics (`dictInsert`), which
matches dict key ordering: an overwrite keeps the key's position, a fresh key is
appended.
-/

namespace LatencyService

/-- A raw telemetry record `{region, latency_ms, uptime_pct}`
(`src/GA_2_5/api/index.py`, the elements of `telemetry_data`). -/
structure Record where
  region : String
  latency_ms : ℚ
  uptime_pct : ℚ
  deriving DecidableEq, Repr

/-- The per-region metrics object built by `get_region_metrics`
(lines 114–119 of `index.py`). -/
structure RegionMetrics where
  avg_latency : ℚ
  p95_latency : ℚ
  avg_uptime : ℚ
  breaches : ℕ
  deriving DecidableEq, Repr

/-- Python `int(x)` on a real number: truncation toward zero. -/
def intOfRat (q : ℚ) : ℤ := if 0 ≤ q then ⌊q⌋ else -⌊-q⌋

/-- Exact round-half-to-even to the nearest integer, the rounding mode of
Python's builtin `round`. -/
def roundHalfEven (q : ℚ) : ℤ :=
  if q - ⌊q⌋ < 1 / 2 then ⌊q⌋
  else if 1 / 2 < q - ⌊q⌋ then ⌊q⌋ + 1
  else if ⌊q⌋ % 2 = 0 then ⌊q⌋ else ⌊q⌋ + 1

/-- Python `round(q, d)`: round half-to-even at `d` decimal digits. -/
def roundTo (d : ℕ) (q : ℚ) : ℚ := (roundHalfEven (q * 10 ^ d) : ℚ) / 10 ^ d

/-- `statistics.mean` on a list of numbers: sum divided by length. -/
def mean (xs : List ℚ) : ℚ := xs.sum / (xs.length : ℚ)

/-- `calculate_percentile(data, percentile)` (`index.py` lines 55–67):
empty input returns `0.0`; otherwise interpolate linearly between the two order
statistics bracketing `(len - 1) * percentile` in the ascending sort of `data`.
Out-of-range accesses cannot happen on the call sites of the service
(see `calculate_percentile_checked` below); here indexing is via `getD`. -/
def calculate_percentile (data : List ℚ) (percentile : ℚ) : ℚ :=
  if data = [] then 0
  else
    let sorted_data := List.insertionSort (· ≤ ·) data
    let index : ℚ := ((sorted_data.length : ℚ) - 1) * percentile
    let lower : ℤ := intOfRat index
    let upper : ℤ := lower + 1
    let weight : ℚ := index - (lower : ℚ)
    if (sorted_data.length : ℤ) ≤ upper then sorted_data.getD lower.toNat 0
    else
      sorted_data.getD lower.toNat 0 * (1 - weight) +
        sorted_data.getD upper.toNat 0 * weight

/-- Bounds-checked list indexing: `some` exactly when `0 ≤ i < length`
(a Python `IndexError`, or a negative wrap-around index, yields `none`). -/
def listIdx (xs : List ℚ) (i : ℤ) : Option ℚ :=
  if h : 0 ≤ i ∧ i.toNat < xs.length then some (xs.get ⟨i.toNat, h.2⟩) else none

/-- `calculate_percentile` with every list access bounds-checked, to state that
the accesses of the source function stay in range on its public interface. -/
def calculate_percentile_checked (data : List ℚ) (percentile : ℚ) : Option ℚ :=
  if data = [] then some 0
  else
    let sorted_data := List.insertionSort (· ≤ ·) data
    let index : ℚ := ((sorted_data.length : ℚ) - 1) * percentile
    let lower : ℤ := intOfRat index
    let upper : ℤ := lower + 1
    let weight : ℚ := index - (lower : ℚ)
    if (sorted_data.length : ℤ) ≤ upper then listIdx sorted_data lower
    else do
      let a ← listIdx sorted_data lower
      let b ← listIdx sorted_data upper
      pure (a * (1 - weight) + b * weight)

/-- The records of `region_data[region]` (`index.py` lines 84–89): the grouping
loop preserves the relative order of records, so the group of a region is the
sublist of telemetry records carrying that region name. -/
def regionRecords (telemetry_data : List Record) (region : String) : List Record :=
  telemetry_data.filter (fun r => r.region == region)

/-- The all-zero metrics returned for a region absent from the dataset
(`index.py` lines 94–99). -/
def zeroMetrics : RegionMetrics :=
  { avg_latency := 0, p95_latency := 0, avg_uptime := 0, breaches := 0 }

/-- The body of the per-region loop of `get_region_metrics`
(`index.py` lines 91–119): zero metrics when the region has no records,
otherwise means, 95th percentile and strict-threshold breach count. -/
def computeRegionMetrics (telemetry_data : List Record) (region : String)
    (threshold_ms : ℤ) : RegionMetrics :=
  let records := regionRecords telemetry_data region
  if records = [] then zeroMetrics
  else
    let latencies := records.map (fun r => r.latency_ms)
    let uptimes := records.map (fun r => r.uptime_pct / 100)
    { avg_latency := roundTo 2 (if latencies ≠ [] then mean latencies else 0)
      p95_latency := roundTo 2 (calculate_percentile latencies (95 / 100))
      avg_uptime := roundTo 4 (if uptimes ≠ [] then mean uptimes else 0)
      breaches := (latencies.filter (fun l => decide ((threshold_ms : ℚ) < l))).length }

/-- Python `dict` assignment `d[k] = v`: overwrite in place if the key exists,
otherwise append the new binding. -/
def dictInsert (d : List (String × RegionMetrics)) (k : String) (v : RegionMetrics) :
    List (String × RegionMetrics) :=
  if d.any (fun p => decide (p.1 = k)) then
    d.map (fun p => if p.1 = k then (k, v) else p)
  else d ++ [(k, v)]

/-- The `POST /api/latency` handler `get_region_metrics` (`index.py`
lines 74–129), as a function of the loaded telemetry data, the requested
regions and the threshold: builds the `results` dict region by region. -/
def get_region_metrics (telemetry_data : List Record) (regions : List String)
    (threshold_ms : ℤ) : List (String × RegionMetrics) :=
  regions.foldl
    (fun results region =>
      dictInsert results region (computeRegionMetrics telemetry_data region threshold_ms))
    []

/-- The percentile estimator exactly as §4.2 of the specification words it:
sort `L` ascending; `idx = 0.95 * (n-1)`; `lower = floor(idx)`,
`upper = lower+1`, `weight = idx - lower`; result `L[lower]` if `upper >= n`,
else `L[lower]*(1-weight) + L[upper]*weight`. -/
def spec_percentile (L : List ℚ) (p : ℚ) : ℚ :=
  let sorted := List.insertionSort (· ≤ ·) L
  let n := L.length
  let idx : ℚ := p * ((n : ℚ) - 1)
  let lower : ℤ := ⌊idx⌋
  let upper : ℤ := lower + 1
  let weight : ℚ := idx - (lower : ℚ)
  if (n : ℤ) ≤ upper then sorted.getD lower.toNat 0
  else sorted.getD lower.toNat 0 * (1 - weight) + sorted.getD upper.toNat 0 * weight

/-- The two-sample `emea` dataset of the specification's worked scenario. -/
def emeaData : List Record :=
  [{ region := "emea", latency_ms := 100, uptime_pct := 99 },
   { region := "emea", latency_ms := 200, uptime_pct := 98 }]

/-! ### Helper lemmas -/

lemma intOfRat_of_nonneg {q : ℚ} (h : 0 ≤ q) : intOfRat q = ⌊q⌋ := if_pos h

lemma calculate_percentile_singleton (x p : ℚ) : calculate_percentile [x] p = x := by
  simp [calculate_percentile, List.insertionSort, List.orderedInsert, intOfRat]

lemma mean_singleton (x : ℚ) : mean [x] = x := by simp [mean]

lemma sum_map_div (xs : List ℚ) (c : ℚ) :
    (xs.map (fun x => x / c)).sum = xs.sum / c := by
  induction xs with
  | nil => simp
  | cons x xs ih => simp [ih, add_div]

lemma getD_mem {α : Type} {l : List α} {i : ℕ} (h : i < l.length) (d : α) :
    l.getD i d ∈ l := by
  rw [List.getD_eq_getElem?_getD, List.getElem?_eq_getElem h]
  exact List.getElem_mem h

lemma listIdx_eq_getD {xs : List ℚ} {i : ℤ} (h0 : 0 ≤ i) (h : i.toNat < xs.length) :
    listIdx xs i = some (xs.getD i.toNat 0) := by
  rw [listIdx, dif_pos ⟨h0, h⟩]
  simp [List.getD_eq_getElem?_getD, List.getElem?_eq_getElem h]

lemma lookup_replaceKey_ne (d : List (String × RegionMetrics)) (k : String)
    (v : RegionMetrics) (k' : String) (h : k' ≠ k) :
    (d.map (fun p => if p.1 = k then (k, v) else p)).lookup k' = d.lookup k' := by
  induction d with
  | nil => rfl
  | cons p tl ih =>
    obtain ⟨a, b⟩ := p
    by_cases hak : a = k
    · subst hak
      have h1 : (k' == a) = false := beq_eq_false_iff_ne.mpr h
      simp only [List.map_cons, if_pos rfl, if_true, List.lookup_cons, h1, ih]
    · by_cases hka : k' = a
      · subst hka
        simp only [List.map_cons, if_neg hak, List.lookup_cons, beq_self_eq_true]
      · have h2 : (k' == a) = false := beq_eq_false_iff_ne.mpr hka
        simp only [List.map_cons, if_neg hak, List.lookup_cons, h2, ih]

lemma lookup_replaceKey_self (d : List (String × RegionMetrics)) (k : String)
    (v : RegionMetrics) (h : d.any (fun p => decide (p.1 = k)) = true) :
    (d.map (fun p => if p.1 = k then (k, v) else p)).lookup k = some v := by
  induction d with
  | nil => simp at h
  | cons p tl ih =>
    obtain ⟨a, b⟩ := p
    by_cases hak : a = k
    · subst hak
      simp only [List.map_cons, if_pos rfl, if_true, List.lookup_cons_self]
    · have h4 : (k == a) = false := beq_eq_false_iff_ne.mpr (Ne.symm hak)
      have h' : tl.any (fun p => decide (p.1 = k)) = true := by
        simpa [List.any_cons, hak] using h
      simp only [List.map_cons, if_neg hak, List.lookup_cons, h4, ih h']

lemma lookup_dictInsert (d : List (String × RegionMetrics)) (k : String)
    (v : RegionMetrics) (k' : String) :
    (dictInsert d k v).lookup k' = if k' = k then some v else d.lookup k' := by
  unfold dictInsert
  split
  case isTrue hany =>
    by_cases hk : k' = k
    · subst hk
      rw [if_pos rfl]
      exact lookup_replaceKey_self d k' v hany
    · rw [if_neg hk]
      exact lookup_replaceKey_ne d k v k' hk
  case isFalse hany =>
    rw [List.lookup_append]
    have hnone : d.lookup k = none := by
      rw [List.lookup_eq_none_iff]
      intro p hp
      have hne : ¬p.1 = k := fun he =>
        hany (List.any_eq_true.mpr ⟨p, hp, by simp [he]⟩)
      have hf : (k == p.1) = false := beq_eq_false_iff_ne.mpr fun e => hne e.symm
      simp [bne, hf]
    by_cases hk : k' = k
    · subst hk
      rw [hnone, if_pos rfl]
      simp only [List.lookup_cons_self, Option.none_or]
    · have h2 : (k' == k) = false := beq_eq_false_iff_ne.mpr hk
      rw [if_neg hk]
      simp only [List.lookup_cons, h2, List.lookup_nil, Option.or_none]

lemma lookup_foldl_dictInsert (f : String → RegionMetrics) (regions : List String)
    (acc : List (String × RegionMetrics)) (k : String) :
    (regions.foldl (fun res r => dictInsert res r (f r)) acc).lookup k
      = if k ∈ regions then some (f k) else acc.lookup k := by
  induction regions generalizing acc with
  | nil => simp
  | cons r rs ih =>
    simp only [List.foldl_cons]
    rw [ih]
    by_cases hk : k ∈ rs
    · simp [hk]
    · rw [lookup_dictInsert]
      by_cases hkr : k = r
      · subst hkr
        simp [hk]
      · simp [hk, hkr]

lemma lookup_get_region_metrics (data : List Record) (regions : List String) (t : ℤ)
    (k : String) :
    (get_region_metrics data regions t).lookup k
      = if k ∈ regions then some (computeRegionMetrics data k t) else none := by
  unfold get_region_metrics
  rw [lookup_foldl_dictInsert]
  simp

lemma map_fst_dictInsert (d : List (String × RegionMetrics)) (k : String)
    (v : RegionMetrics) :
    (dictInsert d k v).map Prod.fst
      = if d.any (fun p => decide (p.1 = k)) then d.map Prod.fst
        else d.map Prod.fst ++ [k] := by
  unfold dictInsert
  split
  · rw [List.map_map]
    refine List.map_congr_left fun p _ => ?_
    by_cases hp : p.1 = k
    · simp [hp]
    · simp [hp]
  · simp_all

lemma nodup_keys_dictInsert (d : List (String × RegionMetrics)) (k : String)
    (v : RegionMetrics) (h : (d.map Prod.fst).Nodup) :
    ((dictInsert d k v).map Prod.fst).Nodup := by
  rw [map_fst_dictInsert]
  split
  · exact h
  case isFalse hany =>
    have hk : k ∉ d.map Prod.fst := by
      intro hmem
      apply hany
      rw [List.any_eq_true]
      obtain ⟨p, hp, hpk⟩ := List.mem_map.mp hmem
      exact ⟨p, hp, by simp [hpk]⟩
    simp [List.nodup_append, h, hk]

lemma nodup_keys_foldl (f : String → RegionMetrics) (regions : List String)
    (acc : List (String × RegionMetrics)) (h : (acc.map Prod.fst).Nodup) :
    ((regions.foldl (fun res r => dictInsert res r (f r)) acc).map Prod.fst).Nodup := by
  induction regions generalizing acc with
  | nil => exact h
  | cons r rs ih => exact ih _ (nodup_keys_dictInsert _ _ _ h)

/-! ### Claim theorems -/

/-- C1: on every non-empty latency list, `calculate_percentile` at percentile
0.95 computes exactly the specification's linear-interpolation estimator
(sort ascending, `idx = 0.95 * (n-1)`, `lower = floor idx`,
`upper = lower + 1`, `weight = idx - lower`, interpolate unless
`upper >= n`). -/
theorem calculate_percentile_matches_spec (L : List ℚ) (h : L ≠ []) :
    calculate_percentile L (95 / 100) = spec_percentile L (95 / 100) := by
  have hn : 0 < L.length := List.length_pos.mpr h
  have h1 : (1 : ℚ) ≤ (L.length : ℚ) := by exact_mod_cast hn
  have hidx : (0 : ℚ) ≤ ((L.length : ℚ) - 1) * (95 / 100) := by
    apply mul_nonneg (by linarith) (by norm_num)
  simp only [calculate_percentile, spec_percentile, if_neg h, List.length_insertionSort]
  rw [intOfRat_of_nonneg hidx, mul_comm ((95 : ℚ) / 100) ((L.length : ℚ) - 1)]

/-- Witness for C1 at the concrete list `[100, 200]`. -/
theorem calculate_percentile_matches_spec_witness :
    calculate_percentile [100, 200] (95 / 100) = spec_percentile [100, 200] (95 / 100) :=
  calculate_percentile_matches_spec [100, 200] (by simp)

/-- C2: on the dataset mapping `emea` to samples (latency 100, uptime 99) and
(latency 200, uptime 98), the request `regions = ["emea"], threshold_ms = 150`
yields `avg_latency = 150.0`, `p95_latency = 195.0`,
`avg_uptime = 0.985` (0–1 scale) and `breaches = 1`. -/
theorem scenario_emea :
    get_region_metrics emeaData ["emea"] 150 =
      [("emea",
        { avg_latency := 150, p95_latency := 195, avg_uptime := 197 / 200,
          breaches := 1 })] := by
  with_unfolding_all decide

/-- C3: for every dataset, region and integer threshold, the returned
`breaches` equals the number of the region's samples whose `latency_ms` is
strictly greater than the threshold; consequently, when the threshold is below
every latency the count is the full sample count, and when no latency exceeds
it the count is zero. -/
theorem breaches_eq_strict_count (data : List Record) (region : String) (t : ℤ) :
    (computeRegionMetrics data region t).breaches
        = (regionRecords data region).countP (fun r => decide ((t : ℚ) < r.latency_ms))
    ∧ ((∀ r ∈ regionRecords data region, (t : ℚ) < r.latency_ms) →
        (computeRegionMetrics data region t).breaches = (regionRecords data region).length)
    ∧ ((∀ r ∈ regionRecords data region, r.latency_ms ≤ (t : ℚ)) →
        (computeRegionMetrics data region t).breaches = 0) := by
  have hcount : (computeRegionMetrics data region t).breaches
      = (regionRecords data region).countP (fun r => decide ((t : ℚ) < r.latency_ms)) := by
    by_cases hrec : regionRecords data region = []
    · simp [computeRegionMetrics, hrec, zeroMetrics]
    · simp only [computeRegionMetrics, if_neg hrec]
      rw [List.filter_map, List.length_map, ← List.countP_eq_length_filter]
      rfl
  refine ⟨hcount, fun hall => ?_, fun hnone => ?_⟩
  · rw [hcount]
    exact List.countP_eq_length.mpr (fun r hr => by simpa using hall r hr)
  · rw [hcount]
    exact List.countP_eq_zero.mpr (fun r hr => by simpa using not_lt.mpr (hnone r hr))

/-- Witness for C3: one sample of latency 100; a threshold of −1 is breached by
the sample, a threshold of 1000 is not. -/
theorem breaches_eq_strict_count_witness :
    (computeRegionMetrics [{ region := "emea", latency_ms := 100, uptime_pct := 99 }]
        "emea" (-1)).breaches = 1
    ∧ (computeRegionMetrics [{ region := "emea", latency_ms := 100, uptime_pct := 99 }]
        "emea" 1000).breaches = 0 :=
  ⟨((breaches_eq_strict_count
        [{ region := "emea", latency_ms := 100, uptime_pct := 99 }] "emea" (-1)).2.1
      (by with_unfolding_all decide)).trans (by with_unfolding_all decide),
   (breaches_eq_strict_count
        [{ region := "emea", latency_ms := 100, uptime_pct := 99 }] "emea" 1000).2.2
      (by with_unfolding_all decide)⟩

/-- C7: when a region's group consists of a single sample, the returned
`p95_latency` equals the returned `avg_latency`, and both are that sample's
latency (rounded to 2 decimal places, the applied rounding). -/
theorem single_sample_p95_eq_avg (data : List Record) (region : String) (t : ℤ)
    (r : Record) (h : regionRecords data region = [r]) :
    (computeRegionMetrics data region t).p95_latency
        = (computeRegionMetrics data region t).avg_latency
    ∧ (computeRegionMetrics data region t).avg_latency = roundTo 2 r.latency_ms := by
  simp [computeRegionMetrics, h, calculate_percentile_singleton, mean_singleton]

/-- Witness for C7 on a one-sample dataset. -/
theorem single_sample_p95_eq_avg_witness :
    (computeRegionMetrics [{ region := "emea", latency_ms := 100, uptime_pct := 99 }]
        "emea" 150).p95_latency
      = (computeRegionMetrics [{ region := "emea", latency_ms := 100, uptime_pct := 99 }]
        "emea" 150).avg_latency
    ∧ (computeRegionMetrics [{ region := "emea", latency_ms := 100, uptime_pct := 99 }]
        "emea" 150).avg_latency = roundTo 2 (100 : ℚ) :=
  single_sample_p95_eq_avg _ "emea" 150
    { region := "emea", latency_ms := 100, uptime_pct := 99 } (by with_unfolding_all decide)

/-- C4: a requested region with no records in the dataset is reported with the
all-zero metrics `{avg_latency := 0, p95_latency := 0, avg_uptime := 0,
breaches := 0}`; the handler has no error path for unknown regions — every
requested region receives an entry, so the zero-fill policy applies to every
unknown region of every request. -/
theorem unknown_region_zero_filled (data : List Record) (regions : List String)
    (t : ℤ) (region : String) (hmem : region ∈ regions)
    (habs : regionRecords data region = []) :
    (get_region_metrics data regions t).lookup region = some zeroMetrics := by
  rw [lookup_get_region_metrics, if_pos hmem]
  simp [computeRegionMetrics, habs]

/-- Witness for C4: requesting `x` against an empty dataset yields the
all-zero metrics. -/
theorem unknown_region_zero_filled_witness :
    (get_region_metrics [] ["x"] 0).lookup "x" = some zeroMetrics :=
  unknown_region_zero_filled [] ["x"] 0 "x" (by simp) rfl

/-- C9: the result mapping has no duplicate keys, a requested region (and only
a requested region) is mapped — duplicates in the request coalesce onto the
single metrics value computed for that region — and an empty request yields the
empty mapping. -/
theorem result_one_entry_per_region (data : List Record) (regions : List String)
    (t : ℤ) :
    ((get_region_metrics data regions t).map Prod.fst).Nodup
    ∧ (∀ region : String,
        (get_region_metrics data regions t).lookup region
          = if region ∈ regions then some (computeRegionMetrics data region t) else none)
    ∧ get_region_metrics data [] t = [] :=
  ⟨nodup_keys_foldl _ regions [] (by simp),
   fun region => lookup_get_region_metrics data regions t region, rfl⟩

/-- C5: for a region with records, `avg_latency` is the mean latency rounded to
2 decimals, `p95_latency` is the percentile rounded to 2 decimals, and
`avg_uptime` is the mean uptime normalized to the 0–1 scale (division by 100)
rounded to 4 decimals. -/
theorem metrics_rounding_and_scale (data : List Record) (region : String) (t : ℤ)
    (h : regionRecords data region ≠ []) :
    (computeRegionMetrics data region t).avg_latency
        = roundTo 2 (((regionRecords data region).map (fun r => r.latency_ms)).sum
            / ((regionRecords data region).length : ℚ))
    ∧ (computeRegionMetrics data region t).p95_latency
        = roundTo 2 (calculate_percentile
            ((regionRecords data region).map (fun r => r.latency_ms)) (95 / 100))
    ∧ (computeRegionMetrics data region t).avg_uptime
        = roundTo 4 ((((regionRecords data region).map (fun r => r.uptime_pct)).sum
            / ((regionRecords data region).length : ℚ)) / 100) := by
  have hlat : (regionRecords data region).map (fun r => r.latency_ms) ≠ [] := by
    simpa using h
  have hup : (regionRecords data region).map (fun r => r.uptime_pct / 100) ≠ [] := by
    simpa using h
  refine ⟨?_, ?_, ?_⟩
  · simp [computeRegionMetrics, if_neg h, hlat, mean]
  · simp [computeRegionMetrics, if_neg h]
  · simp only [computeRegionMetrics, if_neg h, hup, if_pos, ne_eq,
      not_false_iff, if_true, mean, List.length_map]
    have hmap : (regionRecords data region).map (fun r => r.uptime_pct / 100)
        = ((regionRecords data region).map (fun r => r.uptime_pct)).map
            (fun x => x / 100) := by
      rw [List.map_map]
      rfl
    rw [hmap, sum_map_div, div_right_comm]

/-- Witness for C5 on the two-sample `emea` dataset. -/
theorem metrics_rounding_and_scale_witness :
    (computeRegionMetrics emeaData "emea" 150).avg_latency
        = roundTo 2 (((regionRecords emeaData "emea").map (fun r => r.latency_ms)).sum
            / ((regionRecords emeaData "emea").length : ℚ))
    ∧ (computeRegionMetrics emeaData "emea" 150).p95_latency
        = roundTo 2 (calculate_percentile
            ((regionRecords emeaData "emea").map (fun r => r.latency_ms)) (95 / 100))
    ∧ (computeRegionMetrics emeaData "emea" 150).avg_uptime
        = roundTo 4 ((((regionRecords emeaData "emea").map (fun r => r.uptime_pct)).sum
            / ((regionRecords emeaData "emea").length : ℚ)) / 100) :=
  metrics_rounding_and_scale emeaData "emea" 150 (by with_unfolding_all decide)

/-- C6: on every non-empty latency list, the 95th-percentile estimate lies
between the minimum and the maximum of the list. -/
theorem p95_between_min_and_max (L : List ℚ) (m M : ℚ)
    (hm : L.min? = some m) (hM : L.max? = some M) :
    m ≤ calculate_percentile L (95 / 100) ∧ calculate_percentile L (95 / 100) ≤ M := by
  have hne : L ≠ [] := by
    rintro rfl
    simp at hm
  have hmle : ∀ b ∈ L, m ≤ b := fun b hb =>
    (List.le_min?_iff (fun a b c => le_min_iff) hm).mp le_rfl b hb
  have hleM : ∀ b ∈ L, b ≤ M := fun b hb =>
    (List.max?_le_iff (fun a b c => max_le_iff) hM).mp le_rfl b hb
  set S : List ℚ := List.insertionSort (fun a b => a ≤ b) L with hSdef
  have hperm : S.Perm L := List.perm_insertionSort _ _
  have hmemS : ∀ b ∈ S, m ≤ b ∧ b ≤ M := fun b hb =>
    ⟨hmle b (hperm.mem_iff.mp hb), hleM b (hperm.mem_iff.mp hb)⟩
  have hpos : 0 < S.length := by
    rw [hSdef, List.length_insertionSort]
    exact List.length_pos.mpr hne
  set idx : ℚ := ((S.length : ℚ) - 1) * (95 / 100) with hidx
  have h1 : (1 : ℚ) ≤ (S.length : ℚ) := by exact_mod_cast hpos
  have h0idx : 0 ≤ idx := by
    rw [hidx]
    apply mul_nonneg (by linarith) (by norm_num)
  have hfl : intOfRat idx = ⌊idx⌋ := intOfRat_of_nonneg h0idx
  have h0f : 0 ≤ ⌊idx⌋ := Int.floor_nonneg.mpr h0idx
  have hub : idx ≤ (S.length : ℚ) - 1 := by
    rw [hidx]
    nlinarith
  have hcast : ((S.length : ℚ) - 1) = (((S.length : ℤ) - 1 : ℤ) : ℚ) := by push_cast; ring
  have hfub : ⌊idx⌋ ≤ (S.length : ℤ) - 1 := by
    have h2 : ⌊idx⌋ ≤ ⌊((S.length : ℚ) - 1)⌋ := Int.floor_le_floor hub
    rwa [hcast, Int.floor_intCast] at h2
  have htoNat : ⌊idx⌋.toNat < S.length := by omega
  simp only [calculate_percentile, if_neg hne, ← hSdef, ← hidx, hfl]
  by_cases hc : (S.length : ℤ) ≤ ⌊idx⌋ + 1
  · rw [if_pos hc]
    have hmem := hmemS _ (getD_mem htoNat (0 : ℚ))
    exact ⟨hmem.1, hmem.2⟩
  · rw [if_neg hc]
    have hupN : (⌊idx⌋ + 1).toNat < S.length := by omega
    have ha := hmemS _ (getD_mem htoNat (0 : ℚ))
    have hb := hmemS _ (getD_mem hupN (0 : ℚ))
    have hw0 : 0 ≤ idx - (⌊idx⌋ : ℚ) := by
      have := Int.floor_le idx
      linarith
    have hw1 : idx - (⌊idx⌋ : ℚ) ≤ 1 := by
      have := Int.lt_floor_add_one idx
      linarith
    constructor
    · nlinarith [ha.1, hb.1]
    · nlinarith [ha.2, hb.2]

/-- Witness for C6 at the concrete list `[100, 200]`. -/
theorem p95_between_min_and_max_witness :
    (100 : ℚ) ≤ calculate_percentile [100, 200] (95 / 100)
    ∧ calculate_percentile [100, 200] (95 / 100) ≤ 200 :=
  p95_between_min_and_max [100, 200] 100 200 (by with_unfolding_all decide)
    (by with_unfolding_all decide)

/-- C8: the aggregation is a pure function of the dataset, the requested
regions and the threshold — two invocations on identical inputs return
identical result mappings (there is no hidden state in the embedding, which
mirrors the handler's recomputation from its inputs alone). -/
theorem get_region_metrics_deterministic (data : List Record) (regions : List String)
    (t : ℤ) : get_region_metrics data regions t = get_region_metrics data regions t := rfl

/-- C10: the percentile function is total on its public interface — it returns
`0.0` on the empty list without any indexing, and on a non-empty list with a
percentile in `[0, 1]` every list access is in bounds, so the bounds-checked
variant succeeds and agrees with the source function. -/
theorem percentile_total_and_in_bounds (data : List ℚ) (p : ℚ) :
    calculate_percentile_checked [] p = some 0
    ∧ (data ≠ [] → 0 ≤ p → p ≤ 1 →
        calculate_percentile_checked data p = some (calculate_percentile data p)) := by
  refine ⟨rfl, fun hne hp0 hp1 => ?_⟩
  set S : List ℚ := List.insertionSort (fun a b => a ≤ b) data with hSdef
  have hpos : 0 < S.length := by
    rw [hSdef, List.length_insertionSort]
    exact List.length_pos.mpr hne
  set idx : ℚ := ((S.length : ℚ) - 1) * p with hidx
  have h1 : (1 : ℚ) ≤ (S.length : ℚ) := by exact_mod_cast hpos
  have h0idx : 0 ≤ idx := by
    rw [hidx]
    apply mul_nonneg (by linarith) hp0
  have hfl : intOfRat idx = ⌊idx⌋ := intOfRat_of_nonneg h0idx
  have h0f : 0 ≤ ⌊idx⌋ := Int.floor_nonneg.mpr h0idx
  have hub : idx ≤ (S.length : ℚ) - 1 := by
    rw [hidx]
    nlinarith
  have hcast : ((S.length : ℚ) - 1) = (((S.length : ℤ) - 1 : ℤ) : ℚ) := by push_cast; ring
  have hfub : ⌊idx⌋ ≤ (S.length : ℤ) - 1 := by
    have h2 := Int.floor_le_floor hub
    rwa [hcast, Int.floor_intCast] at h2
  have htoNat : ⌊idx⌋.toNat < S.length := by omega
  simp only [calculate_percentile_checked, calculate_percentile, if_neg hne,
    ← hSdef, ← hidx, hfl]
  by_cases hc : (S.length : ℤ) ≤ ⌊idx⌋ + 1
  · rw [if_pos hc, if_pos hc, listIdx_eq_getD h0f htoNat]
  · have hupN : (⌊idx⌋ + 1).toNat < S.length := by omega
    rw [if_neg hc, if_neg hc, listIdx_eq_getD h0f htoNat,
      listIdx_eq_getD (by omega) hupN]
    rfl

/-- Witness for C10 at the concrete list `[100, 200]` and percentile 0.95. -/
theorem percentile_total_and_in_bounds_witness :
    calculate_percentile_checked [100, 200] (95 / 100)
      = some (calculate_percentile [100, 200] (95 / 100)) :=
  (percentile_total_and_in_bounds [100, 200] (95 / 100)).2 (by simp) (by norm_num)
    (by norm_num)

end LatencyService
